import Mathlib

/-!
Verification of the TELNET data-channel escaping writer
(`internalDataWriter` in `src/data_writer.go` of wouteroostervld/go-telnet).

The Go code wraps a `bufio.Writer` and, on each `Write(data)` call, scans
`data` for bytes of value 255 (IAC), forwarding the span before each IAC,
then two 255 bytes, and finally the trailing span, flushing at (most)
exits.  We embed the writer as a pure function over

  * an `Oracle` describing how the wrapped writer reacts to each
    successive operation performed on it (success, or failure with an
    error identity and a possibly short accepted count, as Go's
    `io.Writer` contract allows), and
  * a `WState` recording the bytes accepted by the wrapped writer so far,
    a ghost trace of the operations performed on it, and the index of the
    next operation.

The Go loop (lines 73-102) keeps a cursor `i` into the current slice
`data`; after handling an IAC at `i` it reassigns `data = data[i+1:]` and
sets `i = 0`, after which the loop's `i++` makes the next comparison read
index 1 — index 0 of the reassigned slice is never compared against 255.
The embedding `writeScan` below carries the current slice split as
`scanned ++ rest` with `scanned = data[:i]` (positions the loop has
already moved past, rechecked never) and `rest = data[i:]`, which
represents that control flow exactly, including the skipped position.
-/

namespace Telnet

/-- A byte, as Go's `byte`; all values used here are below 256. -/
abbrev Byte := Nat

/-- Byte value 255, the TELNET IAC byte (`data[i] == 255`, line 74). -/
def IAC : Byte := 255

/-- Outcome the sink-behaviour oracle assigns to one operation on the
wrapped `bufio.Writer`: `ok`, or `fail m e`: failure with error identity
`e` after accepting `m` bytes (`m` matters only for multi-byte writes;
Go's `io.Writer` contract allows a short count together with an error). -/
inductive OpOutcome where
  | ok : OpOutcome
  | fail : Nat → Nat → OpOutcome
deriving DecidableEq

/-- Behaviour of the wrapped writer: outcome of the `k`-th operation. -/
abbrev Oracle := Nat → OpOutcome

/-- Ghost record of one operation performed on the wrapped writer.
`write chunk a e` is `w.wrapped.Write(chunk)` returning `(a, e)`;
`writeByte1`/`writeByte2` are the first/second `w.wrapped.WriteByte(255)`
of a doubling pair (lines 86 and 93); `flush e` is `w.wrapped.Flush()`
returning `e`.  `none` means success. -/
inductive OpKind where
  | write : List Byte → Nat → Option Nat → OpKind
  | writeByte1 : Byte → Option Nat → OpKind
  | writeByte2 : Byte → Option Nat → OpKind
  | flush : Option Nat → OpKind
deriving DecidableEq

/-- State of the wrapped writer: bytes it has accepted so far (in order),
the ghost trace of operations performed on it, and the index of the next
operation (consumed by the oracle). -/
structure WState where
  delivered : List Byte
  trace : List OpKind
  opIdx : Nat
deriving DecidableEq

/-- A fresh wrapped writer: nothing delivered, no operations yet. -/
def initState : WState := ⟨[], [], 0⟩

/-- Model of `w.wrapped.Write(chunk)`.  A zero-length write performs no
underlying I/O (`bufio.Writer.Write` copies nothing and reports no new
error within a call whose earlier operations all succeeded), so it always
succeeds.  Otherwise the oracle decides: on success all of `chunk` is
accepted; on `fail m e` the first `min m chunk.length` bytes are accepted
and the error `e` is returned alongside that short count. -/
def bwWrite (σ : Oracle) (s : WState) (chunk : List Byte) :
    Nat × Option Nat × WState :=
  if chunk.isEmpty then
    (0, none, ⟨s.delivered, s.trace ++ [OpKind.write chunk 0 none], s.opIdx + 1⟩)
  else
    match σ s.opIdx with
    | OpOutcome.ok =>
        (chunk.length, none,
          ⟨s.delivered ++ chunk,
           s.trace ++ [OpKind.write chunk chunk.length none], s.opIdx + 1⟩)
    | OpOutcome.fail m e =>
        (min m chunk.length, some e,
          ⟨s.delivered ++ chunk.take (min m chunk.length),
           s.trace ++ [OpKind.write chunk (min m chunk.length) (some e)],
           s.opIdx + 1⟩)

/-- Model of `w.wrapped.WriteByte(b)`; `second` tags which call site of a
doubling pair this is (line 86 resp. line 93).  On success the byte is
accepted; on failure nothing is accepted. -/
def bwWriteByte (σ : Oracle) (s : WState) (b : Byte) (second : Bool) :
    Option Nat × WState :=
  match σ s.opIdx with
  | OpOutcome.ok =>
      (none,
        ⟨s.delivered ++ [b],
         s.trace ++ [if second then OpKind.writeByte2 b none
                     else OpKind.writeByte1 b none],
         s.opIdx + 1⟩)
  | OpOutcome.fail _ e =>
      (some e,
        ⟨s.delivered,
         s.trace ++ [if second then OpKind.writeByte2 b (some e)
                     else OpKind.writeByte1 b (some e)],
         s.opIdx + 1⟩)

/-- Model of `w.wrapped.Flush()`: pushes already-accepted bytes deeper,
delivering nothing new; it may fail per the oracle. -/
def bwFlush (σ : Oracle) (s : WState) : Option Nat × WState :=
  match σ s.opIdx with
  | OpOutcome.ok =>
      (none, ⟨s.delivered, s.trace ++ [OpKind.flush none], s.opIdx + 1⟩)
  | OpOutcome.fail _ e =>
      (some e, ⟨s.delivered, s.trace ++ [OpKind.flush (some e)], s.opIdx + 1⟩)

/-- Lines 103-112 of `Write`: the code after the scan loop.  `data` here
is the current (possibly reassigned) slice:
`n, e := w.wrapped.Write(data); n_total += n;` on error flush and return
the error; on success flush and return `nil` — note the result of the
final `Flush()` (line 111) is discarded by the source. -/
def writeTail (σ : Oracle) (s : WState) (data : List Byte) (nTotal : Nat) :
    Nat × Option Nat × WState :=
  let r := bwWrite σ s data
  match r.2.1 with
  | some e =>
      let f := bwFlush σ r.2.2
      (nTotal + r.1, some e, f.2)
  | none =>
      let f := bwFlush σ r.2.2
      (nTotal + r.1, none, f.2)

/-- Lines 73-102 of `Write`: the scan loop.  The current slice is
`scanned ++ rest`, with `scanned = data[:i]` (already passed by the
cursor) and `rest = data[i:]`.  When `rest` is exhausted the loop exits
into `writeTail` on the whole current slice.  When the head of `rest` is
IAC (line 74): forward `data[:i] = scanned` (line 79), on error flush and
return (lines 81-85); write the first 255 (line 86), on error return with
no flush (lines 87-89); flush (line 91), count the IAC (line 92), write
the second 255 (line 93), on error flush and return (lines 94-98);
then `data = data[i+1:]; i = 0` followed by the loop's `i++` (lines
99-101) makes the new slice `rest1` with the cursor at 1, i.e. the new
`scanned` is the first element of `rest1` — unchecked — and the new
`rest` is the remainder.  A non-IAC head just moves the cursor on. -/
def writeScan (σ : Oracle) (s : WState) (scanned rest : List Byte)
    (nTotal : Nat) : Nat × Option Nat × WState :=
  match rest with
  | [] => writeTail σ s scanned nTotal
  | b :: rest1 =>
    if b = IAC then
      let r1 := bwWrite σ s scanned
      match r1.2.1 with
      | some e =>
          let f := bwFlush σ r1.2.2
          (nTotal + r1.1, some e, f.2)
      | none =>
        let r2 := bwWriteByte σ r1.2.2 IAC false
        match r2.1 with
        | some e => (nTotal + r1.1, some e, r2.2)
        | none =>
          let r3 := bwFlush σ r2.2
          let r4 := bwWriteByte σ r3.2 IAC true
          match r4.1 with
          | some e =>
              let f := bwFlush σ r4.2
              (nTotal + r1.1 + 1, some e, f.2)
          | none =>
              match rest1 with
              | [] => writeTail σ r4.2 [] (nTotal + r1.1 + 1)
              | c :: rest2 => writeScan σ r4.2 [c] rest2 (nTotal + r1.1 + 1)
    else
      writeScan σ s (scanned ++ [b]) rest1 nTotal

namespace internalDataWriter

/-- `internalDataWriter.Write` (src/data_writer.go lines 66-113) under
sink behaviour `σ`, starting from wrapped-writer state `s`.  Returns
`(n_total, err, final wrapped-writer state)`. -/
def Write (σ : Oracle) (s : WState) (data : List Byte) :
    Nat × Option Nat × WState :=
  writeScan σ s [] data 0

end internalDataWriter

/-- The escaping transform exactly as the spec's output contract states
it: every byte of value 255 is replaced by two consecutive bytes of value
255; all other bytes pass through unchanged, in order. -/
def escapeSpec : List Byte → List Byte
  | [] => []
  | b :: r => if b = IAC then IAC :: IAC :: escapeSpec r else b :: escapeSpec r

/-- The sink behaviour in which every operation succeeds. -/
def okOracle : Oracle := fun _ => OpOutcome.ok

/-- The sink behaviour in which exactly the `k`-th operation fails, with
accepted count `m` and error identity `e`; every other operation
succeeds. -/
def failAt (k m e : Nat) : Oracle :=
  fun j => if j = k then OpOutcome.fail m e else OpOutcome.ok

/-- The error (if any) reported by a recorded operation. -/
def OpKind.errOf : OpKind → Option Nat
  | OpKind.write _ _ e => e
  | OpKind.writeByte1 _ e => e
  | OpKind.writeByte2 _ e => e
  | OpKind.flush e => e

/-- Whether a recorded operation is a forwarding operation (`Write` or
`WriteByte`), as opposed to a `Flush`. -/
def OpKind.isWriteOp : OpKind → Bool
  | OpKind.flush _ => false
  | _ => true

/-- The bytes a recorded operation handed to the wrapped writer. -/
def OpKind.acceptedOf : OpKind → List Byte
  | OpKind.write chunk a _ => chunk.take a
  | OpKind.writeByte1 b none => [b]
  | OpKind.writeByte1 _ (some _) => []
  | OpKind.writeByte2 b none => [b]
  | OpKind.writeByte2 _ (some _) => []
  | OpKind.flush _ => []

/-- The input bytes a recorded operation accounts for in `n_total`:
a span write accounts for the bytes it accepted (line 80 and line 104,
`n_total += n`), and a successful first `WriteByte` of a doubling pair
accounts for the IAC input byte (line 92, `n_total += 1`, reached exactly
when the line-86 `WriteByte` succeeded). -/
def OpKind.countOf : OpKind → Nat
  | OpKind.write _ a _ => a
  | OpKind.writeByte1 _ none => 1
  | _ => 0

/-- All bytes a trace of operations handed to the wrapped writer. -/
def deliveredOf : List OpKind → List Byte
  | [] => []
  | op :: t => op.acceptedOf ++ deliveredOf t

/-- Total input-byte accounting of a trace of operations. -/
def countedOf : List OpKind → Nat
  | [] => 0
  | op :: t => op.countOf + countedOf t

/-- Whether the last operation of a trace is a `Flush` — i.e. whether the
return path that produced this trace flushed before returning. -/
def lastIsFlush (t : List OpKind) : Bool :=
  match t.getLast? with
  | some (OpKind.flush _) => true
  | _ => false

/-- The transform the source actually applies (all sink operations
succeeding): each IAC is doubled, but the byte immediately following a
doubled IAC is passed through unchecked — the reassignment
`data = data[i+1:]; i = 0` at lines 99-100 followed by the loop's `i++`
resumes the comparison of line 74 at index 1 of the new slice. -/
def escapeGo : List Byte → List Byte
  | [] => []
  | b :: r =>
    if b = IAC then
      IAC :: IAC ::
        (match r with
         | [] => []
         | c :: r2 => c :: escapeGo r2)
    else b :: escapeGo r

/-- Structure of the operations one `Write` call performs, as a function
of its returned error.  On success every forwarding operation in the
trace succeeded.  On failure with error `e`, the trace is: a prefix in
which every forwarding operation succeeded, then a forwarding operation
that failed with exactly `e`, then nothing more except possibly the
single error-path `Flush` — i.e. the call stops at the first failed
forwarding operation and surfaces its error as-is. -/
def goodDelta (err : Option Nat) (Δ : List OpKind) : Prop :=
  match err with
  | none => ∀ op ∈ Δ, op.isWriteOp = true → op.errOf = none
  | some e => ∃ t1 op t2, Δ = t1 ++ op :: t2 ∧ op.isWriteOp = true ∧
      op.errOf = some e ∧ (∀ o ∈ t1, o.isWriteOp = true → o.errOf = none) ∧
      (t2 = [] ∨ ∃ f, t2 = [OpKind.flush f])

/-- `opsDelta s s' Δ`: the wrapped-writer state `s'` is reached from `s`
by performing exactly the operations `Δ`. -/
def opsDelta (s s' : WState) (Δ : List OpKind) : Prop :=
  s'.trace = s.trace ++ Δ ∧
  s'.delivered = s.delivered ++ deliveredOf Δ ∧
  s'.opIdx = s.opIdx + Δ.length

/-- Full accounting of a call fragment returning `r`, started in
wrapped-writer state `s` with running total `n`: some trace `Δ` of new
operations was appended, the delivered bytes and the operation index
advanced accordingly, the returned total counts exactly the input bytes
the new operations account for, and `Δ` has the `goodDelta` structure
with respect to the returned error. -/
def deltaSpec (s : WState) (r : Nat × Option Nat × WState) (n : Nat) : Prop :=
  ∃ Δ, r.2.2.trace = s.trace ++ Δ ∧
    r.2.2.delivered = s.delivered ++ deliveredOf Δ ∧
    r.2.2.opIdx = s.opIdx + Δ.length ∧
    r.1 = n + countedOf Δ ∧
    goodDelta r.2.1 Δ

/-! ## Characterization of the single wrapped-writer operations -/

theorem bwWrite_okAt {σ : Oracle} {s : WState} {chunk : List Byte}
    (h : σ s.opIdx = OpOutcome.ok) :
    bwWrite σ s chunk =
      (chunk.length, none,
        ⟨s.delivered ++ chunk,
         s.trace ++ [OpKind.write chunk chunk.length none], s.opIdx + 1⟩) := by
  cases chunk with
  | nil => simp [bwWrite]
  | cons c cs => simp [bwWrite, h]

theorem bwWrite_failAt {σ : Oracle} {s : WState} {chunk : List Byte} {m e : Nat}
    (h : σ s.opIdx = OpOutcome.fail m e) (hne : chunk ≠ []) :
    bwWrite σ s chunk =
      (min m chunk.length, some e,
        ⟨s.delivered ++ chunk.take (min m chunk.length),
         s.trace ++ [OpKind.write chunk (min m chunk.length) (some e)],
         s.opIdx + 1⟩) := by
  cases chunk with
  | nil => exact absurd rfl hne
  | cons c cs => simp [bwWrite, h]

theorem bwWrite_none {σ : Oracle} {s : WState} {chunk : List Byte}
    (h : (bwWrite σ s chunk).2.1 = none) :
    bwWrite σ s chunk =
      (chunk.length, none,
        ⟨s.delivered ++ chunk,
         s.trace ++ [OpKind.write chunk chunk.length none], s.opIdx + 1⟩) := by
  cases chunk with
  | nil => simp [bwWrite]
  | cons c cs =>
    cases hσ : σ s.opIdx with
    | ok => exact bwWrite_okAt hσ
    | fail m e => rw [bwWrite_failAt hσ (by simp)] at h; simp at h

theorem bwWrite_some {σ : Oracle} {s : WState} {chunk : List Byte} {e : Nat}
    (h : (bwWrite σ s chunk).2.1 = some e) :
    ∃ a, a ≤ chunk.length ∧
      bwWrite σ s chunk =
        (a, some e,
          ⟨s.delivered ++ chunk.take a,
           s.trace ++ [OpKind.write chunk a (some e)], s.opIdx + 1⟩) := by
  cases chunk with
  | nil => simp [bwWrite] at h
  | cons c cs =>
    cases hσ : σ s.opIdx with
    | ok => rw [bwWrite_okAt hσ] at h; simp at h
    | fail m e2 =>
      have heq := bwWrite_failAt hσ (show (c :: cs : List Byte) ≠ [] by simp)
      rw [heq] at h
      simp at h
      subst h
      exact ⟨min m (c :: cs).length, Nat.min_le_right _ _, heq⟩

theorem bwWriteByte_okAt {σ : Oracle} {s : WState} {b : Byte} {sec : Bool}
    (h : σ s.opIdx = OpOutcome.ok) :
    bwWriteByte σ s b sec =
      (none,
        ⟨s.delivered ++ [b],
         s.trace ++ [if sec then OpKind.writeByte2 b none
                     else OpKind.writeByte1 b none], s.opIdx + 1⟩) := by
  simp [bwWriteByte, h]

theorem bwWriteByte_failAt {σ : Oracle} {s : WState} {b : Byte} {sec : Bool}
    {m e : Nat} (h : σ s.opIdx = OpOutcome.fail m e) :
    bwWriteByte σ s b sec =
      (some e,
        ⟨s.delivered,
         s.trace ++ [if sec then OpKind.writeByte2 b (some e)
                     else OpKind.writeByte1 b (some e)], s.opIdx + 1⟩) := by
  simp [bwWriteByte, h]

theorem bwWriteByte_none {σ : Oracle} {s : WState} {b : Byte} {sec : Bool}
    (h : (bwWriteByte σ s b sec).1 = none) :
    bwWriteByte σ s b sec =
      (none,
        ⟨s.delivered ++ [b],
         s.trace ++ [if sec then OpKind.writeByte2 b none
                     else OpKind.writeByte1 b none], s.opIdx + 1⟩) := by
  cases hσ : σ s.opIdx with
  | ok => exact bwWriteByte_okAt hσ
  | fail m e => rw [bwWriteByte_failAt hσ] at h; simp at h

theorem bwWriteByte_some {σ : Oracle} {s : WState} {b : Byte} {sec : Bool}
    {e : Nat} (h : (bwWriteByte σ s b sec).1 = some e) :
    bwWriteByte σ s b sec =
      (some e,
        ⟨s.delivered,
         s.trace ++ [if sec then OpKind.writeByte2 b (some e)
                     else OpKind.writeByte1 b (some e)], s.opIdx + 1⟩) := by
  cases hσ : σ s.opIdx with
  | ok => rw [bwWriteByte_okAt hσ] at h; simp at h
  | fail m e2 =>
    have heq := @bwWriteByte_failAt σ s b sec m e2 hσ
    rw [heq] at h
    simp at h
    subst h
    exact heq

theorem bwFlush_eq (σ : Oracle) (s : WState) :
    bwFlush σ s =
      ((bwFlush σ s).1,
        ⟨s.delivered, s.trace ++ [OpKind.flush (bwFlush σ s).1],
         s.opIdx + 1⟩) := by
  unfold bwFlush
  cases σ s.opIdx <;> rfl

theorem bwWrite_okOracle (s : WState) (chunk : List Byte) :
    bwWrite okOracle s chunk =
      (chunk.length, none,
        ⟨s.delivered ++ chunk,
         s.trace ++ [OpKind.write chunk chunk.length none], s.opIdx + 1⟩) :=
  bwWrite_okAt rfl

theorem bwWriteByte_okOracle (s : WState) (b : Byte) (sec : Bool) :
    bwWriteByte okOracle s b sec =
      (none,
        ⟨s.delivered ++ [b],
         s.trace ++ [if sec then OpKind.writeByte2 b none
                     else OpKind.writeByte1 b none], s.opIdx + 1⟩) :=
  bwWriteByte_okAt rfl

theorem bwFlush_okOracle (s : WState) :
    bwFlush okOracle s =
      (none, ⟨s.delivered, s.trace ++ [OpKind.flush none], s.opIdx + 1⟩) := by
  simp [bwFlush, okOracle]

/-! ## Trace bookkeeping lemmas -/

theorem deliveredOf_append (a b : List OpKind) :
    deliveredOf (a ++ b) = deliveredOf a ++ deliveredOf b := by
  induction a with
  | nil => simp [deliveredOf]
  | cons op t ih => simp [deliveredOf, ih]

theorem countedOf_append (a b : List OpKind) :
    countedOf (a ++ b) = countedOf a + countedOf b := by
  induction a with
  | nil => simp [countedOf]
  | cons op t ih => simp [countedOf, ih]; omega

theorem goodDelta_append {err : Option Nat} {Δ0 Δ : List OpKind}
    (h0 : ∀ op ∈ Δ0, op.isWriteOp = true → op.errOf = none)
    (h : goodDelta err Δ) : goodDelta err (Δ0 ++ Δ) := by
  cases err with
  | none =>
    intro op hop hw
    rcases List.mem_append.mp hop with h1 | h2
    · exact h0 op h1 hw
    · exact h op h2 hw
  | some e =>
    obtain ⟨t1, op, t2, hΔ, hw, he, ht1, ht2⟩ := h
    exact ⟨Δ0 ++ t1, op, t2, by simp [hΔ], hw, he,
      fun o ho hwo => (List.mem_append.mp ho).elim
        (fun h1 => h0 o h1 hwo) (fun h2 => ht1 o h2 hwo), ht2⟩

/-- Passing the scan cursor over a stretch of non-IAC bytes: the loop of
lines 73-102 moves `i` across positions whose byte is not 255 without
performing any operation. -/
theorem scan_skip (σ : Oracle) :
    ∀ (pre : List Byte), IAC ∉ pre →
      ∀ (scanned rest : List Byte) (s : WState) (n : Nat),
        writeScan σ s scanned (pre ++ rest) n
          = writeScan σ s (scanned ++ pre) rest n := by
  intro pre
  induction pre with
  | nil => intro _ scanned rest s n; simp
  | cons b pre1 ih =>
    intro hb scanned rest s n
    have hbne : b ≠ IAC := by intro h; exact hb (by simp [h])
    have hpre : IAC ∉ pre1 := by intro h; exact hb (by simp [h])
    show writeScan σ s scanned (b :: (pre1 ++ rest)) n = _
    rw [writeScan]
    simp only [if_neg hbne]
    rw [ih hpre]
    simp

/-! ## Projection lemmas for the single operations -/

theorem bwFlush_st (σ : Oracle) (s : WState) :
    (bwFlush σ s).2 =
      ⟨s.delivered, s.trace ++ [OpKind.flush (bwFlush σ s).1], s.opIdx + 1⟩ := by
  unfold bwFlush
  cases σ s.opIdx <;> rfl

theorem bwFlush_d (σ : Oracle) (s : WState) :
    (bwFlush σ s).2.delivered = s.delivered := by
  rw [bwFlush_st]

theorem bwFlush_t (σ : Oracle) (s : WState) :
    (bwFlush σ s).2.trace = s.trace ++ [OpKind.flush (bwFlush σ s).1] := by
  rw [bwFlush_st]

theorem bwFlush_i (σ : Oracle) (s : WState) :
    (bwFlush σ s).2.opIdx = s.opIdx + 1 := by
  rw [bwFlush_st]

theorem bwWrite_n_none {σ : Oracle} {s : WState} {c : List Byte}
    (h : (bwWrite σ s c).2.1 = none) : (bwWrite σ s c).1 = c.length := by
  rw [bwWrite_none h]

theorem bwWrite_d_none {σ : Oracle} {s : WState} {c : List Byte}
    (h : (bwWrite σ s c).2.1 = none) :
    (bwWrite σ s c).2.2.delivered = s.delivered ++ c := by
  rw [bwWrite_none h]

theorem bwWrite_t_none {σ : Oracle} {s : WState} {c : List Byte}
    (h : (bwWrite σ s c).2.1 = none) :
    (bwWrite σ s c).2.2.trace = s.trace ++ [OpKind.write c c.length none] := by
  rw [bwWrite_none h]

theorem bwWrite_i (σ : Oracle) (s : WState) (c : List Byte) :
    (bwWrite σ s c).2.2.opIdx = s.opIdx + 1 := by
  cases he : (bwWrite σ s c).2.1 with
  | none => rw [bwWrite_none he]
  | some e =>
    obtain ⟨a, _, hw⟩ := bwWrite_some he
    rw [hw]

theorem bwWriteByte_d_none {σ : Oracle} {s : WState} {b : Byte} {sec : Bool}
    (h : (bwWriteByte σ s b sec).1 = none) :
    (bwWriteByte σ s b sec).2.delivered = s.delivered ++ [b] := by
  rw [bwWriteByte_none h]

theorem bwWriteByte_t_none {σ : Oracle} {s : WState} {b : Byte} {sec : Bool}
    (h : (bwWriteByte σ s b sec).1 = none) :
    (bwWriteByte σ s b sec).2.trace =
      s.trace ++ [if sec then OpKind.writeByte2 b none
                  else OpKind.writeByte1 b none] := by
  rw [bwWriteByte_none h]

theorem bwWriteByte_d_some {σ : Oracle} {s : WState} {b : Byte} {sec : Bool}
    {e : Nat} (h : (bwWriteByte σ s b sec).1 = some e) :
    (bwWriteByte σ s b sec).2.delivered = s.delivered := by
  rw [bwWriteByte_some h]

theorem bwWriteByte_t_some {σ : Oracle} {s : WState} {b : Byte} {sec : Bool}
    {e : Nat} (h : (bwWriteByte σ s b sec).1 = some e) :
    (bwWriteByte σ s b sec).2.trace =
      s.trace ++ [if sec then OpKind.writeByte2 b (some e)
                  else OpKind.writeByte1 b (some e)] := by
  rw [bwWriteByte_some h]

theorem bwWriteByte_i (σ : Oracle) (s : WState) (b : Byte) (sec : Bool) :
    (bwWriteByte σ s b sec).2.opIdx = s.opIdx + 1 := by
  cases he : (bwWriteByte σ s b sec).1 with
  | none => rw [bwWriteByte_none he]
  | some e => rw [bwWriteByte_some he]

/-! ## The accounting invariant -/

theorem writeTail_delta (σ : Oracle) (s : WState) (d : List Byte) (n : Nat) :
    deltaSpec s (writeTail σ s d n) n := by
  unfold deltaSpec
  cases he : (bwWrite σ s d).2.1 with
  | none =>
    have hw := bwWrite_none he
    rcases hF : bwFlush σ (⟨s.delivered ++ d,
        s.trace ++ [OpKind.write d d.length none], s.opIdx + 1⟩ : WState)
      with ⟨fe, s2⟩
    have h2 := bwFlush_st σ (⟨s.delivered ++ d,
        s.trace ++ [OpKind.write d d.length none], s.opIdx + 1⟩ : WState)
    rw [hF] at h2
    simp only at h2
    simp only [writeTail, hw, hF]
    refine ⟨[OpKind.write d d.length none, OpKind.flush fe], ?_, ?_, ?_, ?_, ?_⟩
    · rw [h2]; simp
    · rw [h2]; simp [deliveredOf, OpKind.acceptedOf]
    · rw [h2]; simp
    · simp [countedOf, OpKind.countOf]
    · intro op hop hwop
      simp at hop
      rcases hop with rfl | rfl
      · rfl
      · simp [OpKind.isWriteOp] at hwop
  | some e =>
    obtain ⟨a, ha, hw⟩ := bwWrite_some he
    rcases hF : bwFlush σ (⟨s.delivered ++ d.take a,
        s.trace ++ [OpKind.write d a (some e)], s.opIdx + 1⟩ : WState)
      with ⟨fe, s2⟩
    have h2 := bwFlush_st σ (⟨s.delivered ++ d.take a,
        s.trace ++ [OpKind.write d a (some e)], s.opIdx + 1⟩ : WState)
    rw [hF] at h2
    simp only at h2
    simp only [writeTail, hw, hF]
    refine ⟨[OpKind.write d a (some e), OpKind.flush fe], ?_, ?_, ?_, ?_, ?_⟩
    · rw [h2]; simp
    · rw [h2]; simp [deliveredOf, OpKind.acceptedOf]
    · rw [h2]; simp
    · simp [countedOf, OpKind.countOf]
    · exact ⟨[], OpKind.write d a (some e), [OpKind.flush fe], rfl, rfl, rfl,
        by simp, Or.inr ⟨fe, rfl⟩⟩

/-! ## Chaining operations -/

theorem opsDelta_nil (s : WState) : opsDelta s s [] :=
  ⟨by simp, by simp [deliveredOf], by simp⟩

theorem opsDelta_write_none {σ : Oracle} {s1 : WState} {c : List Byte}
    {s : WState} {Δ : List OpKind}
    (h : (bwWrite σ s1 c).2.1 = none) (hD : opsDelta s s1 Δ) :
    opsDelta s (bwWrite σ s1 c).2.2 (Δ ++ [OpKind.write c c.length none]) := by
  obtain ⟨ht, hd, hi⟩ := hD
  rw [bwWrite_none h]
  refine ⟨?_, ?_, ?_⟩
  · simp [ht]
  · simp [hd, deliveredOf_append, deliveredOf, OpKind.acceptedOf]
  · simp [hi]; omega

theorem opsDelta_write_some {σ : Oracle} {s1 : WState} {c : List Byte}
    {e : Nat} {s : WState} {Δ : List OpKind}
    (h : (bwWrite σ s1 c).2.1 = some e) (hD : opsDelta s s1 Δ) :
    opsDelta s (bwWrite σ s1 c).2.2
      (Δ ++ [OpKind.write c (bwWrite σ s1 c).1 (some e)]) := by
  obtain ⟨ht, hd, hi⟩ := hD
  obtain ⟨a, ha, hw⟩ := bwWrite_some h
  rw [hw]
  refine ⟨?_, ?_, ?_⟩
  · simp [ht]
  · simp [hd, deliveredOf_append, deliveredOf, OpKind.acceptedOf]
  · simp [hi]; omega

theorem opsDelta_wb_none {σ : Oracle} {s1 : WState} {b : Byte} {sec : Bool}
    {s : WState} {Δ : List OpKind}
    (h : (bwWriteByte σ s1 b sec).1 = none) (hD : opsDelta s s1 Δ) :
    opsDelta s (bwWriteByte σ s1 b sec).2
      (Δ ++ [if sec then OpKind.writeByte2 b none
             else OpKind.writeByte1 b none]) := by
  obtain ⟨ht, hd, hi⟩ := hD
  rw [bwWriteByte_none h]
  refine ⟨?_, ?_, ?_⟩
  · simp [ht]
  · cases sec <;>
      simp [hd, deliveredOf_append, deliveredOf, OpKind.acceptedOf]
  · simp [hi]; omega

theorem opsDelta_wb_some {σ : Oracle} {s1 : WState} {b : Byte} {sec : Bool}
    {e : Nat} {s : WState} {Δ : List OpKind}
    (h : (bwWriteByte σ s1 b sec).1 = some e) (hD : opsDelta s s1 Δ) :
    opsDelta s (bwWriteByte σ s1 b sec).2
      (Δ ++ [if sec then OpKind.writeByte2 b (some e)
             else OpKind.writeByte1 b (some e)]) := by
  obtain ⟨ht, hd, hi⟩ := hD
  rw [bwWriteByte_some h]
  refine ⟨?_, ?_, ?_⟩
  · simp [ht]
  · cases sec <;>
      simp [hd, deliveredOf_append, deliveredOf, OpKind.acceptedOf]
  · simp [hi]; omega

theorem opsDelta_flush (σ : Oracle) {s1 s : WState} {Δ : List OpKind}
    (hD : opsDelta s s1 Δ) :
    opsDelta s (bwFlush σ s1).2 (Δ ++ [OpKind.flush (bwFlush σ s1).1]) := by
  obtain ⟨ht, hd, hi⟩ := hD
  refine ⟨?_, ?_, ?_⟩
  · rw [bwFlush_t]; simp [ht]
  · rw [bwFlush_d]; simp [hd, deliveredOf_append, deliveredOf, OpKind.acceptedOf]
  · rw [bwFlush_i]; simp [hi]; omega

/-- Packaging: a finished fragment returning `(k, err, s')`. -/
theorem deltaSpec_of_opsDelta {s s' : WState} {Δ : List OpKind}
    {k n : Nat} {err : Option Nat}
    (hD : opsDelta s s' Δ) (hk : k = n + countedOf Δ)
    (hg : goodDelta err Δ) : deltaSpec s (k, err, s') n :=
  ⟨Δ, hD.1, hD.2.1, hD.2.2, hk, hg⟩

/-- Prepending a fragment of successful operations to an accounted
continuation. -/
theorem deltaSpec_step {s1 s2 : WState} {r : Nat × Option Nat × WState}
    {n k : Nat} {Δ0 : List OpKind}
    (hD : opsDelta s1 s2 Δ0)
    (hk : k = n + countedOf Δ0)
    (h0 : ∀ op ∈ Δ0, op.isWriteOp = true → op.errOf = none)
    (h : deltaSpec s2 r k) : deltaSpec s1 r n := by
  obtain ⟨ht, hd, hi⟩ := hD
  obtain ⟨Δ, hΔt, hΔd, hΔi, hΔc, hΔg⟩ := h
  refine ⟨Δ0 ++ Δ, ?_, ?_, ?_, ?_, goodDelta_append h0 hΔg⟩
  · rw [hΔt, ht]; simp
  · rw [hΔd, hd, deliveredOf_append]; simp
  · rw [hΔi, hi]; simp; omega
  · rw [hΔc, hk, countedOf_append]; omega

/-! ## goodDelta shapes -/

theorem goodDelta_tailOk (c : List Byte) (a : Nat) (f : Option Nat) :
    goodDelta none [OpKind.write c a none, OpKind.flush f] := by
  intro op hop hw
  simp at hop
  rcases hop with rfl | rfl
  · rfl
  · simp [OpKind.isWriteOp] at hw

theorem goodDelta_wfail (c : List Byte) (a e : Nat) (f : Option Nat) :
    goodDelta (some e) [OpKind.write c a (some e), OpKind.flush f] :=
  ⟨[], OpKind.write c a (some e), [OpKind.flush f], rfl, rfl, rfl, by simp,
    Or.inr ⟨f, rfl⟩⟩

theorem goodDelta_b1fail (c : List Byte) (a e : Nat) :
    goodDelta (some e) [OpKind.write c a none, OpKind.writeByte1 IAC (some e)] :=
  ⟨[OpKind.write c a none], OpKind.writeByte1 IAC (some e), [], rfl, rfl, rfl,
    by intro o ho hw; simp at ho; subst ho; rfl, Or.inl rfl⟩

theorem goodDelta_b2fail (c : List Byte) (a e : Nat) (f g : Option Nat) :
    goodDelta (some e) [OpKind.write c a none, OpKind.writeByte1 IAC none,
      OpKind.flush f, OpKind.writeByte2 IAC (some e), OpKind.flush g] := by
  refine ⟨[OpKind.write c a none, OpKind.writeByte1 IAC none, OpKind.flush f],
    OpKind.writeByte2 IAC (some e), [OpKind.flush g], rfl, rfl, rfl, ?_,
    Or.inr ⟨g, rfl⟩⟩
  intro o ho hw
  simp at ho
  rcases ho with rfl | rfl | rfl
  · rfl
  · rfl
  · simp [OpKind.isWriteOp] at hw

theorem okOps4 (c : List Byte) (a : Nat) (f : Option Nat) :
    ∀ op ∈ [OpKind.write c a none, OpKind.writeByte1 IAC none, OpKind.flush f,
      OpKind.writeByte2 IAC none], op.isWriteOp = true → op.errOf = none := by
  intro op hop hw
  simp at hop
  rcases hop with rfl | rfl | rfl | rfl
  · rfl
  · rfl
  · simp [OpKind.isWriteOp] at hw
  · rfl

theorem writeScan_delta (σ : Oracle) :
    ∀ (s : WState) (scanned rest : List Byte) (n : Nat),
      deltaSpec s (writeScan σ s scanned rest n) n := by
  refine writeScan.induct σ
    (fun s scanned rest n => deltaSpec s (writeScan σ s scanned rest n) n)
    ?_ ?_ ?_ ?_ ?_ ?_ ?_
  · -- rest = []
    intro s scanned n
    exact writeTail_delta σ s scanned n
  · -- span write fails
    intro s scanned n rest2 r1 e he
    unfold_let r1 at he
    rw [writeScan.eq_def]
    simp only [he, if_true]
    have D1 := opsDelta_write_some he (opsDelta_nil s)
    have D2 := opsDelta_flush σ D1
    refine deltaSpec_of_opsDelta D2 ?_ ?_
    · simp [countedOf, OpKind.countOf]; try omega
    · exact goodDelta_wfail scanned (bwWrite σ s scanned).1 e _
  · -- first WriteByte of the pair fails
    intro s scanned n rest2 r1 h1 r2 e h2
    unfold_let r2 at h2
    unfold_let r1 at h1 h2
    rw [writeScan.eq_def]
    simp only [h1, h2, if_true]
    have D1 := opsDelta_write_none h1 (opsDelta_nil s)
    have D2 := opsDelta_wb_some h2 D1
    refine deltaSpec_of_opsDelta D2 ?_ ?_
    · rw [bwWrite_n_none h1]; simp [countedOf, OpKind.countOf]; try omega
    · exact goodDelta_b1fail scanned scanned.length e
  · -- second WriteByte of the pair fails
    intro s scanned n rest2 r1 h1 r2 h2 r3 r4 e h4
    unfold_let r4 at h4
    unfold_let r3 at h4
    unfold_let r2 at h2 h4
    unfold_let r1 at h1 h2 h4
    rw [writeScan.eq_def]
    simp only [h1, h2, h4, if_true]
    have D1 := opsDelta_write_none h1 (opsDelta_nil s)
    have D2 := opsDelta_wb_none h2 D1
    have D3 := opsDelta_flush σ D2
    have D4 := opsDelta_wb_some h4 D3
    have D5 := opsDelta_flush σ D4
    refine deltaSpec_of_opsDelta D5 ?_ ?_
    · rw [bwWrite_n_none h1]; simp [countedOf, OpKind.countOf]; try omega
    · exact goodDelta_b2fail scanned scanned.length e _ _
  · -- rest = [IAC], pair completed, trailing write of the empty slice
    intro s scanned n r1 h1 r2 h2 r3 r4 h4
    unfold_let r4 at h4
    unfold_let r3 at h4
    unfold_let r2 at h2 h4
    unfold_let r1 at h1 h2 h4
    rw [writeScan.eq_def]
    simp only [h1, h2, h4, if_true]
    have D1 := opsDelta_write_none h1 (opsDelta_nil s)
    have D2 := opsDelta_wb_none h2 D1
    have D3 := opsDelta_flush σ D2
    have D4 := opsDelta_wb_none h4 D3
    refine deltaSpec_step D4 ?_ ?_ (writeTail_delta σ _ [] _)
    · rw [bwWrite_n_none h1]; simp [countedOf, OpKind.countOf]; try omega
    · exact okOps4 scanned scanned.length _
  · -- rest = IAC :: c :: rest2, pair completed, scan continues at index 1
    intro s scanned n r1 h1 r2 h2 r3 r4 h4 c rest2 ih
    unfold_let r4 at h4 ih
    unfold_let r3 at h4 ih
    unfold_let r2 at h2 h4 ih
    unfold_let r1 at h1 h2 h4 ih
    rw [writeScan.eq_def]
    simp only [h1, h2, h4, if_true]
    have D1 := opsDelta_write_none h1 (opsDelta_nil s)
    have D2 := opsDelta_wb_none h2 D1
    have D3 := opsDelta_flush σ D2
    have D4 := opsDelta_wb_none h4 D3
    refine deltaSpec_step D4 ?_ ?_ ih
    · rw [bwWrite_n_none h1]; simp [countedOf, OpKind.countOf]; try omega
    · exact okOps4 scanned scanned.length _
  · -- head of rest is not IAC: the cursor moves on
    intro s scanned n c rest2 hc ih
    rw [writeScan.eq_def]
    simp only [if_neg hc]
    exact ih

/-! ## Count bounds -/

theorem writeTail_le (σ : Oracle) (s : WState) (d : List Byte) (n : Nat) :
    (writeTail σ s d n).1 ≤ n + d.length := by
  cases he : (bwWrite σ s d).2.1 with
  | none =>
    simp only [writeTail, he]
    rw [bwWrite_n_none he]
  | some e =>
    obtain ⟨a, ha, hw⟩ := bwWrite_some he
    simp only [writeTail, he, hw]
    omega

theorem writeTail_none {σ : Oracle} {s : WState} {d : List Byte} {n : Nat}
    (h : (writeTail σ s d n).2.1 = none) :
    (writeTail σ s d n).1 = n + d.length := by
  cases he : (bwWrite σ s d).2.1 with
  | none =>
    simp only [writeTail, he]
    rw [bwWrite_n_none he]
  | some e =>
    simp only [writeTail, he] at h
    simp at h

theorem writeScan_le (σ : Oracle) :
    ∀ (s : WState) (scanned rest : List Byte) (n : Nat),
      (writeScan σ s scanned rest n).1 ≤ n + scanned.length + rest.length := by
  refine writeScan.induct σ
    (fun s scanned rest n =>
      (writeScan σ s scanned rest n).1 ≤ n + scanned.length + rest.length)
    ?_ ?_ ?_ ?_ ?_ ?_ ?_
  · intro s scanned n
    simpa using writeTail_le σ s scanned n
  · intro s scanned n rest2 r1 e he
    unfold_let r1 at he
    obtain ⟨a, ha, hw⟩ := bwWrite_some he
    rw [writeScan.eq_def]
    simp only [he, if_true, hw]
    simp
    omega
  · intro s scanned n rest2 r1 h1 r2 e h2
    unfold_let r2 at h2
    unfold_let r1 at h1 h2
    rw [writeScan.eq_def]
    simp only [h1, h2, if_true]
    rw [bwWrite_n_none h1]
    simp
  · intro s scanned n rest2 r1 h1 r2 h2 r3 r4 e h4
    unfold_let r4 at h4
    unfold_let r3 at h4
    unfold_let r2 at h2 h4
    unfold_let r1 at h1 h2 h4
    rw [writeScan.eq_def]
    simp only [h1, h2, h4, if_true]
    rw [bwWrite_n_none h1]
    simp
  · intro s scanned n r1 h1 r2 h2 r3 r4 h4
    unfold_let r4 at h4
    unfold_let r3 at h4
    unfold_let r2 at h2 h4
    unfold_let r1 at h1 h2 h4
    rw [writeScan.eq_def]
    simp only [h1, h2, h4, if_true]
    rw [bwWrite_n_none h1]
    refine le_trans (writeTail_le σ _ [] _) ?_
    simp
  · intro s scanned n r1 h1 r2 h2 r3 r4 h4 c rest2 ih
    unfold_let r4 at h4 ih
    unfold_let r3 at h4 ih
    unfold_let r2 at h2 h4 ih
    unfold_let r1 at h1 h2 h4 ih
    rw [writeScan.eq_def]
    simp only [h1, h2, h4, if_true]
    rw [bwWrite_n_none h1]
    rw [bwWrite_n_none h1] at ih
    simp at ih ⊢
    omega
  · intro s scanned n c rest2 hc ih
    rw [writeScan.eq_def]
    simp only [if_neg hc]
    simp at ih ⊢
    omega

theorem writeScan_none (σ : Oracle) :
    ∀ (s : WState) (scanned rest : List Byte) (n : Nat),
      (writeScan σ s scanned rest n).2.1 = none →
      (writeScan σ s scanned rest n).1 = n + scanned.length + rest.length := by
  refine writeScan.induct σ
    (fun s scanned rest n =>
      (writeScan σ s scanned rest n).2.1 = none →
      (writeScan σ s scanned rest n).1 = n + scanned.length + rest.length)
    ?_ ?_ ?_ ?_ ?_ ?_ ?_
  · intro s scanned n h
    have h2 : (writeTail σ s scanned n).2.1 = none := h
    have h3 := writeTail_none h2
    show (writeTail σ s scanned n).1 = n + scanned.length + List.length []
    simp [h3]
  · intro s scanned n rest2 r1 e he
    unfold_let r1 at he
    rw [writeScan.eq_def]
    simp only [he, if_true]
    intro h
    simp at h
  · intro s scanned n rest2 r1 h1 r2 e h2
    unfold_let r2 at h2
    unfold_let r1 at h1 h2
    rw [writeScan.eq_def]
    simp only [h1, h2, if_true]
    intro h
    simp at h
  · intro s scanned n rest2 r1 h1 r2 h2 r3 r4 e h4
    unfold_let r4 at h4
    unfold_let r3 at h4
    unfold_let r2 at h2 h4
    unfold_let r1 at h1 h2 h4
    rw [writeScan.eq_def]
    simp only [h1, h2, h4, if_true]
    intro h
    simp at h
  · intro s scanned n r1 h1 r2 h2 r3 r4 h4
    unfold_let r4 at h4
    unfold_let r3 at h4
    unfold_let r2 at h2 h4
    unfold_let r1 at h1 h2 h4
    rw [writeScan.eq_def]
    simp only [h1, h2, h4, if_true]
    rw [bwWrite_n_none h1]
    intro h
    have h3 := writeTail_none h
    simp at h3 ⊢
    omega
  · intro s scanned n r1 h1 r2 h2 r3 r4 h4 c rest2 ih
    unfold_let r4 at h4 ih
    unfold_let r3 at h4 ih
    unfold_let r2 at h2 h4 ih
    unfold_let r1 at h1 h2 h4 ih
    rw [writeScan.eq_def]
    simp only [h1, h2, h4, if_true]
    rw [bwWrite_n_none h1]
    rw [bwWrite_n_none h1] at ih
    intro h
    have h3 := ih h
    simp at h3 ⊢
    omega
  · intro s scanned n c rest2 hc ih
    rw [writeScan.eq_def]
    simp only [if_neg hc]
    intro h
    have h3 := ih h
    simp at h3 ⊢
    omega

/-! ## What the code delivers when the sink never fails -/

theorem escapeGo_nil : escapeGo [] = [] := rfl

theorem escapeGo_cons_ne {b : Byte} {r : List Byte} (h : ¬b = IAC) :
    escapeGo (b :: r) = b :: escapeGo r := by
  rw [escapeGo.eq_def]
  simp [h]

theorem escapeGo_IAC_nil : escapeGo [IAC] = [IAC, IAC] := rfl

theorem escapeGo_IAC_cons (c : Byte) (r : List Byte) :
    escapeGo (IAC :: c :: r) = IAC :: IAC :: c :: escapeGo r := rfl

theorem writeTail_ok_delivered (s : WState) (d : List Byte) (n : Nat) :
    (writeTail okOracle s d n).2.2.delivered = s.delivered ++ d := by
  simp only [writeTail, bwWrite_okOracle]
  rw [bwFlush_d]

/-- With every sink operation succeeding, the scan delivers the already
passed-over bytes verbatim followed by the `escapeGo` transform of the
not-yet-scanned remainder. -/
theorem scan_ok_delivered :
    ∀ (s : WState) (scanned rest : List Byte) (n : Nat),
      (writeScan okOracle s scanned rest n).2.2.delivered
        = s.delivered ++ scanned ++ escapeGo rest := by
  refine writeScan.induct okOracle
    (fun s scanned rest n =>
      (writeScan okOracle s scanned rest n).2.2.delivered
        = s.delivered ++ scanned ++ escapeGo rest)
    ?_ ?_ ?_ ?_ ?_ ?_ ?_
  · intro s scanned n
    show (writeTail okOracle s scanned n).2.2.delivered = _
    rw [writeTail_ok_delivered]
    simp [escapeGo_nil]
  · intro s scanned n rest2 r1 e he
    unfold_let r1 at he
    simp [bwWrite_okOracle] at he
  · intro s scanned n rest2 r1 h1 r2 e h2
    unfold_let r2 at h2
    unfold_let r1 at h2
    simp [bwWrite_okOracle, bwWriteByte_okOracle] at h2
  · intro s scanned n rest2 r1 h1 r2 h2 r3 r4 e h4
    unfold_let r4 at h4
    unfold_let r3 at h4
    unfold_let r2 at h4
    unfold_let r1 at h4
    simp [bwWrite_okOracle, bwWriteByte_okOracle, bwFlush_okOracle] at h4
  · intro s scanned n r1 h1 r2 h2 r3 r4 h4
    rw [writeScan.eq_def]
    simp only [bwWrite_okOracle, bwWriteByte_okOracle, bwFlush_okOracle, if_true]
    rw [writeTail_ok_delivered]
    simp [escapeGo_IAC_nil]
  · intro s scanned n r1 h1 r2 h2 r3 r4 h4 c rest2 ih
    unfold_let r4 at ih
    unfold_let r3 at ih
    unfold_let r2 at ih
    unfold_let r1 at ih
    rw [writeScan.eq_def]
    simp only [bwWrite_okOracle, bwWriteByte_okOracle, bwFlush_okOracle,
      if_true] at ih ⊢
    rw [ih]
    simp [escapeGo_IAC_cons]
  · intro s scanned n c rest2 hc ih
    rw [writeScan.eq_def]
    simp only [if_neg hc]
    rw [ih, escapeGo_cons_ne hc]
    simp

/-! ## Delivered bytes are a prefix of the failure-free delivery -/

theorem writeTail_nil_delivered (σ : Oracle) (s : WState) (n : Nat) :
    (writeTail σ s [] n).2.2.delivered = s.delivered := by
  simp only [writeTail, bwWrite]
  simp
  rw [bwFlush_d]

/-- Whatever the sink does, the bytes a call delivers are a prefix of
what the same call would deliver were every sink operation to succeed:
nothing past the failure point is forwarded. -/
theorem writeScan_deliv_ext (σ : Oracle) :
    ∀ (s : WState) (scanned rest : List Byte) (n : Nat),
      ∃ d ext, (writeScan σ s scanned rest n).2.2.delivered = s.delivered ++ d ∧
        d ++ ext = scanned ++ escapeGo rest := by
  refine writeScan.induct σ
    (fun s scanned rest n =>
      ∃ d ext, (writeScan σ s scanned rest n).2.2.delivered = s.delivered ++ d ∧
        d ++ ext = scanned ++ escapeGo rest)
    ?_ ?_ ?_ ?_ ?_ ?_ ?_
  · intro s scanned n
    show ∃ d ext, (writeTail σ s scanned n).2.2.delivered = s.delivered ++ d ∧
      d ++ ext = scanned ++ escapeGo []
    cases he : (bwWrite σ s scanned).2.1 with
    | none =>
      obtain ⟨ht, hd, hi⟩ := opsDelta_flush σ (opsDelta_write_none he (opsDelta_nil s))
      refine ⟨scanned, [], ?_, by simp [escapeGo_nil]⟩
      simp only [writeTail, he]
      rw [hd]
      simp [deliveredOf_append, deliveredOf, OpKind.acceptedOf]
    | some e =>
      obtain ⟨ht, hd, hi⟩ := opsDelta_flush σ (opsDelta_write_some he (opsDelta_nil s))
      refine ⟨scanned.take ((bwWrite σ s scanned).1),
        scanned.drop ((bwWrite σ s scanned).1), ?_, by simp [escapeGo_nil]⟩
      simp only [writeTail, he]
      rw [hd]
      simp [deliveredOf_append, deliveredOf, OpKind.acceptedOf]
  · intro s scanned n rest2 r1 e he
    unfold_let r1 at he
    obtain ⟨ht, hd, hi⟩ := opsDelta_flush σ (opsDelta_write_some he (opsDelta_nil s))
    rw [writeScan.eq_def]
    simp only [he, if_true]
    refine ⟨scanned.take ((bwWrite σ s scanned).1),
      scanned.drop ((bwWrite σ s scanned).1) ++ escapeGo (IAC :: rest2), ?_,
      by rw [← List.append_assoc, List.take_append_drop]⟩
    rw [hd]
    simp [deliveredOf_append, deliveredOf, OpKind.acceptedOf]
  · intro s scanned n rest2 r1 h1 r2 e h2
    unfold_let r2 at h2
    unfold_let r1 at h1 h2
    obtain ⟨ht, hd, hi⟩ := opsDelta_wb_some h2 (opsDelta_write_none h1 (opsDelta_nil s))
    rw [writeScan.eq_def]
    simp only [h1, h2, if_true]
    refine ⟨scanned, escapeGo (IAC :: rest2), ?_, by simp⟩
    rw [hd]
    simp [deliveredOf_append, deliveredOf, OpKind.acceptedOf]
  · intro s scanned n rest2 r1 h1 r2 h2 r3 r4 e h4
    unfold_let r4 at h4
    unfold_let r3 at h4
    unfold_let r2 at h2 h4
    unfold_let r1 at h1 h2 h4
    obtain ⟨ht, hd, hi⟩ := opsDelta_flush σ (opsDelta_wb_some h4 (opsDelta_flush σ
      (opsDelta_wb_none h2 (opsDelta_write_none h1 (opsDelta_nil s)))))
    rw [writeScan.eq_def]
    simp only [h1, h2, h4, if_true]
    cases rest2 with
    | nil =>
      refine ⟨scanned ++ [IAC], [IAC], ?_, by simp [escapeGo_IAC_nil]⟩
      rw [hd]
      simp [deliveredOf_append, deliveredOf, OpKind.acceptedOf]
    | cons c r2 =>
      refine ⟨scanned ++ [IAC], IAC :: c :: escapeGo r2, ?_,
        by rw [escapeGo_IAC_cons]; simp⟩
      rw [hd]
      simp [deliveredOf_append, deliveredOf, OpKind.acceptedOf]
  · intro s scanned n r1 h1 r2 h2 r3 r4 h4
    unfold_let r4 at h4
    unfold_let r3 at h4
    unfold_let r2 at h2 h4
    unfold_let r1 at h1 h2 h4
    obtain ⟨ht, hd, hi⟩ := opsDelta_wb_none h4 (opsDelta_flush σ
      (opsDelta_wb_none h2 (opsDelta_write_none h1 (opsDelta_nil s))))
    rw [writeScan.eq_def]
    simp only [h1, h2, h4, if_true]
    refine ⟨scanned ++ [IAC, IAC], [], ?_, by simp [escapeGo_IAC_nil]⟩
    rw [writeTail_nil_delivered, hd]
    simp [deliveredOf_append, deliveredOf, OpKind.acceptedOf]
  · intro s scanned n r1 h1 r2 h2 r3 r4 h4 c rest2 ih
    unfold_let r4 at h4 ih
    unfold_let r3 at h4 ih
    unfold_let r2 at h2 h4 ih
    unfold_let r1 at h1 h2 h4 ih
    obtain ⟨d1, ext1, ihd, ihe⟩ := ih
    obtain ⟨ht, hd, hi⟩ := opsDelta_wb_none h4 (opsDelta_flush σ
      (opsDelta_wb_none h2 (opsDelta_write_none h1 (opsDelta_nil s))))
    rw [writeScan.eq_def]
    simp only [h1, h2, h4, if_true]
    refine ⟨scanned ++ IAC :: IAC :: d1, ext1, ?_, ?_⟩
    · rw [ihd, hd]
      simp [deliveredOf_append, deliveredOf, OpKind.acceptedOf]
    · rw [escapeGo_IAC_cons]
      have : (c :: escapeGo rest2 : List Byte) = d1 ++ ext1 := by
        rw [ihe]; simp
      rw [this]
      simp
  · intro s scanned n c rest2 hc ih
    obtain ⟨d1, ext1, ihd, ihe⟩ := ih
    rw [writeScan.eq_def]
    simp only [if_neg hc]
    refine ⟨d1, ext1, ihd, ?_⟩
    rw [ihe, escapeGo_cons_ne hc]
    simp

/-! ## The claims -/

theorem bwFlush_okAt {σ : Oracle} {s : WState} (h : σ s.opIdx = OpOutcome.ok) :
    bwFlush σ s = (none, ⟨s.delivered, s.trace ++ [OpKind.flush none], s.opIdx + 1⟩) := by
  unfold bwFlush
  rw [h]

/-- C10: when the sink accepts the first 255 of a doubled pair
(operation 1) but the write of the second 255 of that pair (operation 3)
fails, the returned count is `pre.length + 1`: it includes the IAC input
byte whose doubling was left incomplete — the IAC is counted after the
first pair byte succeeds (line 92) and before the second is attempted
(line 93).  Only the first 255 of the pair was handed downstream. -/
theorem C10_pair_count (pre suf : List Byte) (h : IAC ∉ pre) :
    internalDataWriter.Write (failAt 3 0 9) initState (pre ++ IAC :: suf)
      = (pre.length + 1, some 9,
         ⟨pre ++ [IAC],
          [OpKind.write pre pre.length none, OpKind.writeByte1 IAC none,
           OpKind.flush none, OpKind.writeByte2 IAC (some 9), OpKind.flush none],
          5⟩) := by
  show writeScan (failAt 3 0 9) initState [] (pre ++ IAC :: suf) 0 = _
  rw [scan_skip (failAt 3 0 9) pre h [] (IAC :: suf) initState 0]
  simp only [List.nil_append]
  rw [writeScan.eq_def]
  rw [bwWrite_okAt (show failAt 3 0 9 initState.opIdx = OpOutcome.ok from rfl)]
  simp only [if_true]
  rw [bwWriteByte_okAt rfl]
  simp only []
  rw [bwFlush_okAt rfl]
  simp only []
  simp [bwWriteByte, bwFlush, failAt, initState]


/-- C1: the spec says a single Write call delivers exactly the input with
every byte 255 doubled.  The code violates this: for the input
`[255, 255]`, the byte after a doubled IAC is never compared against 255
(the scan resumes at index 1 of the reassigned slice), so the second IAC
goes downstream unescaped: the code delivers `[255, 255, 255]` while the
documented transform yields `[255, 255, 255, 255]`. -/
theorem C1_escaping_code_bug :
    (internalDataWriter.Write okOracle initState [255, 255]).2.2.delivered
        = [255, 255, 255] ∧
    escapeSpec [255, 255] = [255, 255, 255, 255] ∧
    (internalDataWriter.Write okOracle initState [255, 255]).2.2.delivered
        ≠ escapeSpec [255, 255] := by decide

/-- C2: the spec's scenario C expects input `[255, 255]` to deliver
`[255, 255, 255, 255]`.  The code instead returns count 2, no error, and
delivers only three bytes; the full result (count, error, delivered
bytes, operation trace) is computed here. -/
theorem C2_adjacent_IAC_code_bug :
    internalDataWriter.Write okOracle initState [255, 255]
      = (2, none,
         ⟨[255, 255, 255],
          [OpKind.write [] 0 none, OpKind.writeByte1 255 none,
           OpKind.flush none, OpKind.writeByte2 255 none,
           OpKind.write [255] 1 none, OpKind.flush none],
          6⟩) ∧
    ([255, 255, 255] : List Byte) ≠ [255, 255, 255, 255] := by decide

/-- C3: chunking invariance fails on the code.  Writing `[255]` twice
(two calls against the same wrapped writer) delivers
`[255, 255, 255, 255]`, while a single call on the concatenation
`[255, 255]` delivers `[255, 255, 255]`. -/
theorem C3_chunking_code_bug :
    (internalDataWriter.Write okOracle
        (internalDataWriter.Write okOracle initState [255]).2.2
        [255]).2.2.delivered = [255, 255, 255, 255] ∧
    (internalDataWriter.Write okOracle initState [255, 255]).2.2.delivered
        = [255, 255, 255] ∧
    ([255, 255, 255, 255] : List Byte) ≠ [255, 255, 255] := by decide

/-- C4 counterexample: the claim says a Write call never returns a nil
error while a flush it performed has failed.  On input `[1]` with the
sink failing the final flush (operation 1), the trace records a failed
flush and yet the call returns count 1 with no error — the source
discards the result of every `Flush()` call. -/
theorem C4_counterexample :
    (internalDataWriter.Write (failAt 1 0 7) initState [1]).1 = 1 ∧
    (internalDataWriter.Write (failAt 1 0 7) initState [1]).2.1 = none ∧
    (internalDataWriter.Write (failAt 1 0 7) initState [1]).2.2.trace
      = [OpKind.write [1] 1 none, OpKind.flush (some 7)] := by decide

/-- C4 amended: failures of forwarding operations (`Write`/`WriteByte`)
are always surfaced — the call returns nil exactly when no forwarding
operation failed, and a returned error is the error of a failed
forwarding operation, as-is.  Flush failures are not surfaced. -/
theorem C4_write_failures_surfaced (data : List Byte) (σ : Oracle) :
    ((internalDataWriter.Write σ initState data).2.1 = none ↔
      ∀ op ∈ (internalDataWriter.Write σ initState data).2.2.trace,
        op.isWriteOp = true → op.errOf = none) ∧
    (∀ e, (internalDataWriter.Write σ initState data).2.1 = some e →
      ∃ op ∈ (internalDataWriter.Write σ initState data).2.2.trace,
        op.isWriteOp = true ∧ op.errOf = some e) := by
  have hD : deltaSpec initState (internalDataWriter.Write σ initState data) 0 :=
    writeScan_delta σ initState [] data 0
  obtain ⟨Δ, ht, hd, hi, hc, hg⟩ := hD
  have htr : (internalDataWriter.Write σ initState data).2.2.trace = Δ := by
    simpa [initState] using ht
  constructor
  · constructor
    · intro hnone
      rw [htr]
      rw [hnone] at hg
      exact hg
    · intro hall
      cases herr : (internalDataWriter.Write σ initState data).2.1 with
      | none => rfl
      | some e =>
        rw [herr] at hg
        obtain ⟨t1, op, t2, hΔ, hop, hoe, _, _⟩ := hg
        have hmem : op ∈ Δ := by rw [hΔ]; simp
        have hno := hall op (by rw [htr]; exact hmem) hop
        rw [hno] at hoe
        cases hoe
  · intro e herr
    rw [herr] at hg
    obtain ⟨t1, op, t2, hΔ, hop, hoe, _, _⟩ := hg
    exact ⟨op, by rw [htr, hΔ]; simp, hop, hoe⟩

/-- C4 witness: on input `[1]` with the sink failing the first write, the
returned error 7 is traced back to a failed forwarding operation. -/
theorem C4_witness :
    ∃ op ∈ (internalDataWriter.Write (failAt 0 0 7) initState [1]).2.2.trace,
      op.isWriteOp = true ∧ op.errOf = some 7 :=
  (C4_write_failures_surfaced [1] (failAt 0 0 7)).2 7 (by decide)

/-- C5: the spec requires a flush before every return, including every
error return.  The return at the failed first `WriteByte` of a doubling
pair (lines 87-89) does not flush: on input `[1, 255]` with operation 1
failing, the call returns error 7 with the trace ending in the failed
`WriteByte`, not in a `Flush` — and the span byte 1 already handed to the
wrapped writer is left unflushed. -/
theorem C5_missing_flush_code_bug :
    internalDataWriter.Write (failAt 1 0 7) initState [1, 255]
      = (1, some 7,
         ⟨[1], [OpKind.write [1] 1 none, OpKind.writeByte1 255 (some 7)], 2⟩) ∧
    lastIsFlush [OpKind.write [1] 1 none, OpKind.writeByte1 255 (some 7)]
      = false := by decide

/-- C6 counterexample: the claim says a failing call returns the count of
input bytes accounted for prior to the failing attempt.  On `[1, 2, 3]`
with the very first sink operation failing after accepting 2 bytes
(a short write, as Go's `io.Writer` allows), no forwarding attempt
precedes the failing one — the trace shows the failed write is the first
operation — yet the call returns count 2, not 0: bytes partially
accepted by the failing attempt itself are included. -/
theorem C6_counterexample :
    (internalDataWriter.Write (failAt 0 2 9) initState [1, 2, 3]).1 = 2 ∧
    (internalDataWriter.Write (failAt 0 2 9) initState [1, 2, 3]).2.1 = some 9 ∧
    (internalDataWriter.Write (failAt 0 2 9) initState [1, 2, 3]).2.2.trace
      = [OpKind.write [1, 2, 3] 2 (some 9), OpKind.flush none] ∧
    (2 : Nat) ≠ 0 := by decide

/-- C6 amended: when a Write call fails with error `e`: (1) the returned
count is exactly the input bytes accounted by the performed operations —
those accepted by span writes (including bytes the failing write itself
partially accepted) plus one per IAC whose first pair byte was written;
(2) the delivered bytes are a prefix of what the call would have
delivered had every sink operation succeeded (nothing past the failure
point is forwarded); (3) the trace is: operations whose forwarding all
succeeded, then a forwarding operation failed with exactly `e`, then at
most the single error-path flush (the call stops immediately). -/
theorem C6_error_short_circuit (data : List Byte) (σ : Oracle) (e : Nat)
    (h : (internalDataWriter.Write σ initState data).2.1 = some e) :
    ((internalDataWriter.Write σ initState data).1
        = countedOf (internalDataWriter.Write σ initState data).2.2.trace) ∧
    (∃ ext, (internalDataWriter.Write okOracle initState data).2.2.delivered
        = (internalDataWriter.Write σ initState data).2.2.delivered ++ ext) ∧
    (∃ t1 op t2,
      (internalDataWriter.Write σ initState data).2.2.trace = t1 ++ op :: t2 ∧
      op.isWriteOp = true ∧ op.errOf = some e ∧
      (∀ o ∈ t1, o.isWriteOp = true → o.errOf = none) ∧
      (t2 = [] ∨ ∃ f, t2 = [OpKind.flush f])) := by
  have hD : deltaSpec initState (internalDataWriter.Write σ initState data) 0 :=
    writeScan_delta σ initState [] data 0
  obtain ⟨Δ, ht, hd, hi, hc, hg⟩ := hD
  have htr : (internalDataWriter.Write σ initState data).2.2.trace = Δ := by
    simpa [initState] using ht
  refine ⟨?_, ?_, ?_⟩
  · rw [htr, hc]
    simp
  · have hP : ∃ d ext,
        (internalDataWriter.Write σ initState data).2.2.delivered
          = initState.delivered ++ d ∧ d ++ ext = [] ++ escapeGo data :=
      writeScan_deliv_ext σ initState [] data 0
    obtain ⟨d, ext, hσd, hde⟩ := hP
    have hok : (internalDataWriter.Write okOracle initState data).2.2.delivered
        = escapeGo data := by
      have h2 : (internalDataWriter.Write okOracle initState data).2.2.delivered
          = initState.delivered ++ [] ++ escapeGo data :=
        scan_ok_delivered initState [] data 0
      simpa [initState] using h2
    refine ⟨ext, ?_⟩
    rw [hok]
    have hσd2 : (internalDataWriter.Write σ initState data).2.2.delivered = d := by
      simpa [initState] using hσd
    rw [hσd2]
    simpa using hde.symm
  · rw [h] at hg
    obtain ⟨t1, op, t2, hΔ, hop, hoe, ht1, ht2⟩ := hg
    exact ⟨t1, op, t2, by rw [htr, hΔ], hop, hoe, ht1, ht2⟩

/-- C6 witness: instantiation of the count clause on `[1, 2, 3]` with the
first sink write failing after accepting 2 bytes. -/
theorem C6_witness :
    (internalDataWriter.Write (failAt 0 2 9) initState [1, 2, 3]).1
      = countedOf
          (internalDataWriter.Write (failAt 0 2 9) initState [1, 2, 3]).2.2.trace :=
  (C6_error_short_circuit [1, 2, 3] (failAt 0 2 9) 9 (by decide)).1

/-- C7: the returned count counts input bytes (one per original byte,
not the doubled output count): whenever Write returns a nil error the
count equals the length of the input sequence, for every sink
behaviour. -/
theorem C7_count_is_input_length (data : List Byte) (σ : Oracle)
    (h : (internalDataWriter.Write σ initState data).2.1 = none) :
    (internalDataWriter.Write σ initState data).1 = data.length := by
  have h2 : (writeScan σ initState [] data 0).2.1 = none := h
  have h3 := writeScan_none σ initState [] data 0 h2
  simpa using h3

/-- C7 witness: the spec's scenario A input has 11 bytes; the successful
call returns count 11 (not the 13 bytes actually delivered). -/
theorem C7_witness :
    (internalDataWriter.Write okOracle initState
        [1, 55, 2, 155, 3, 255, 4, 40, 255, 30, 20]).2.1 = none ∧
    (internalDataWriter.Write okOracle initState
        [1, 55, 2, 155, 3, 255, 4, 40, 255, 30, 20]).1 = 11 :=
  ⟨by decide,
    C7_count_is_input_length [1, 55, 2, 155, 3, 255, 4, 40, 255, 30, 20]
      okOracle (by decide)⟩

/-- C8: writing an empty byte sequence succeeds for every sink behaviour:
count 0, nil error, nothing forwarded. -/
theorem C8_empty_input (σ : Oracle) :
    (internalDataWriter.Write σ initState []).1 = 0 ∧
    (internalDataWriter.Write σ initState []).2.1 = none ∧
    (internalDataWriter.Write σ initState []).2.2.delivered = [] := by
  refine ⟨rfl, rfl, ?_⟩
  show (bwFlush σ (⟨[], [OpKind.write [] 0 none], 1⟩ : WState)).2.delivered = []
  rw [bwFlush_d]

/-- C9: for every input and every sink behaviour, the returned count is
between 0 and the length of the input sequence. -/
theorem C9_count_bounds (data : List Byte) (σ : Oracle) :
    0 ≤ (internalDataWriter.Write σ initState data).1 ∧
    (internalDataWriter.Write σ initState data).1 ≤ data.length := by
  constructor
  · exact Nat.zero_le _
  · have h := writeScan_le σ initState [] data 0
    simpa using h

/-- C10 witness: `pre = [1, 2]`, `suf = [3]`. -/
theorem C10_witness :
    (IAC ∉ ([1, 2] : List Byte)) ∧
    internalDataWriter.Write (failAt 3 0 9) initState ([1, 2] ++ IAC :: [3])
      = (3, some 9,
         ⟨[1, 2, IAC],
          [OpKind.write [1, 2] 2 none, OpKind.writeByte1 IAC none,
           OpKind.flush none, OpKind.writeByte2 IAC (some 9), OpKind.flush none],
          5⟩) :=
  ⟨by decide, C10_pair_count [1, 2] [3] (by decide)⟩

end Telnet
